import Mathlib

/-!
Shallow embedding of the memoization core of the decorators repository:
the composite-key builder (`Cache.keyFrom` in src/function.js, `keyFor` in
src/descorators.js), the identity registry (`Cache.references` resp. the
module-level `references`/`guuid` pair), the two-level cache
(`DefaultMap.fetch` / `Cache.fetch`), the memoize advices for classes,
methods and accessors, and the default memoized setter.
-/

/-- JavaScript runtime values, restricted to the shapes the key builder
distinguishes: `null`, `undefined`, booleans, (integer) numbers, strings, and
reference-typed values (objects and functions), the latter identified by an
abstract address. -/
inductive JSValue where
  | null
  | undef
  | bool (b : Bool)
  | num (i : Int)
  | str (s : String)
  | ref (addr : Nat)
deriving DecidableEq, Repr

/-- JavaScript exceptions, as raised by compute thunks or by the decorators
themselves. -/
inductive JSError where
  | typeError (msg : String)
  | thrown (v : JSValue)
deriving DecidableEq, Repr

/-- First-match lookup in an association list; the functional model of
`Map.get` / `WeakMap.get` (returning `none` where JS returns `undefined`). -/
def mapLookup {κ β : Type} [DecidableEq κ] : List (κ × β) → κ → Option β
  | [], _ => none
  | (a, b) :: t, k => if a = k then some b else mapLookup t k

/-- Removal of every binding of a key; the functional model of
`Map.delete` / `WeakMap.delete`. -/
def mapErase {κ β : Type} [DecidableEq κ] : List (κ × β) → κ → List (κ × β)
  | [], _ => []
  | (a, b) :: t, k => if a = k then mapErase t k else (a, b) :: mapErase t k

/-- State of the identity registry: the `guuid` counter (`Cache.guuid` in
src/function.js, the module-level `guuid` in src/descorators.js, both start
at 1) together with the `WeakMap` from reference address to assigned id
(`Cache.references` resp. `references`). -/
structure RegState where
  next : Nat
  table : List (Nat × Nat)
deriving DecidableEq, Repr

/-- Initial registry: `guuid = 1`, empty `WeakMap`. -/
def regInit : RegState := ⟨1, []⟩

/-- Lookup of a reference address in the registry table. -/
def RegState.lookup (s : RegState) (a : Nat) : Option Nat := mapLookup s.table a

/-- Embedding of `retrieve(references, it, () => guuid++)`
(src/descorators.js lines 183-186 and 198) and equivalently of
`Cache.references.get(it)` whose `DefaultMap` fallback is
`() => Cache.guuid++` (src/function.js lines 212-216): return the stored id
if present, otherwise assign the current counter value and increment it. -/
def retrieveRef (a : Nat) (s : RegState) : Nat × RegState :=
  match s.lookup a with
  | some n => (n, s)
  | none => (s.next, ⟨s.next + 1, (a, s.next) :: s.table⟩)

/-- A run of the registry: first-registration requests for a sequence of
reference addresses, starting from the initial registry. -/
def runReg (l : List Nat) : RegState :=
  l.foldl (fun s a => (retrieveRef a s).2) regInit

/-- Decimal digit character, `String(n)` style. -/
def digitChar (k : Nat) : Char := Char.ofNat (48 + k)

/-- Decimal digits, fuel-indexed so the recursion is structural (and hence
kernel-computable); a fuel of `n + 1` always suffices because a number has
at most `n + 1` decimal digits. -/
def natDigitsAux : Nat → Nat → List Char
  | 0, _ => []
  | fuel + 1, n =>
      if n < 10 then [digitChar n]
      else natDigitsAux fuel (n / 10) ++ [digitChar (n % 10)]

/-- Decimal digits of a natural number, most significant first; the model of
JavaScript template-literal rendering of a nonnegative number. -/
def natDigits (n : Nat) : List Char := natDigitsAux (n + 1) n

/-- Rendering of a natural number as its decimal string. -/
def renderNat (n : Nat) : String := ⟨natDigits n⟩

/-- Rendering of an integer, the model of a template literal on a number. -/
def renderInt : Int → String
  | .ofNat n => renderNat n
  | .negSucc n => "-" ++ renderNat (n + 1)

/-- Replacement of the first occurrence of a character, on the character
list. -/
def jsReplaceFirstChar : List Char → Char → List Char → List Char
  | [], _, _ => []
  | c :: cs, p, r => if c = p then r ++ cs else c :: jsReplaceFirstChar cs p r

/-- Embedding of JavaScript `String.prototype.replace` with a one-character
string pattern: only the first occurrence is replaced. -/
def jsReplaceFirst (s : String) (p : Char) (r : String) : String :=
  ⟨jsReplaceFirstChar s.data p r.data⟩

/-- Per-argument token of the composite key builder, embedding the switch in
`keyFor` (src/descorators.js lines 192-205) and in `Cache.keyFrom`
(src/function.js lines 224-237): `null`/`undefined` render as their
literals, objects and functions render as the angle-bracketed registry id
(the bare `references` in src/function.js resolves, per intent and per
src/descorators.js, to the registry), strings are wrapped in quotes after
`it.replace('"', '\"')` — whose replacement string `'\"'` is, in JavaScript,
the single character `"` — and all remaining primitives render as their
template-literal text. The registry state is threaded because looking up a
reference registers it on first use. -/
def tokenFor (v : JSValue) (s : RegState) : String × RegState :=
  match v with
  | .null => ("null", s)
  | .undef => ("undefined", s)
  | .ref a =>
      let (n, s1) := retrieveRef a s
      ("<" ++ renderNat n ++ ">", s1)
  | .str t => ("\"" ++ jsReplaceFirst t '"' "\"" ++ "\"", s)
  | .bool b => (if b then "true" else "false", s)
  | .num i => (renderInt i, s)

/-- Left-to-right token list of an argument list (the `parameters.map`
step), threading the registry state. -/
def keyTokens : List JSValue → RegState → List String × RegState
  | [], s => ([], s)
  | v :: vs, s =>
      let (t, s1) := tokenFor v s
      let (ts, s2) := keyTokens vs s1
      (t :: ts, s2)

/-- Embedding of `Array.prototype.join(",")`. -/
def joinComma : List String → String
  | [] => ""
  | [t] => t
  | t :: ts => t ++ "," ++ joinComma ts

/-- Embedding of the composite-key builder `Cache.keyFrom`
(src/function.js lines 224-237) / `keyFor` (src/descorators.js lines
192-205): token per argument, joined with commas. -/
def keyFrom (params : List JSValue) (s : RegState) : String × RegState :=
  let (ts, s1) := keyTokens params s
  (joinComma ts, s1)

/-- A cache table: the inner `Map` of one receiver scope, keyed by composite
key strings. -/
abbrev CacheTable := List (String × JSValue)

/-- State of one `Cache` instance (src/function.js lines 239-241): the
registry (shared, static) together with the outer `WeakMap` from receiver to
inner table. -/
structure CacheState where
  reg : RegState
  tables : List (Nat × CacheTable)
deriving DecidableEq, Repr

/-- A fresh `new Cache()`. -/
def cacheInit : CacheState := ⟨regInit, []⟩

/-- Embedding of `DefaultMap.get` (src/function.js lines 193-195) for the
outer level, whose fallback `() => new DefaultMap(new Map(), null)` is pure
and total: return the stored table, creating and storing an empty one on
first use. -/
def dmGet {κ β : Type} [DecidableEq κ] (store : List (κ × β)) (k : κ)
    (fallback : Unit → β) : β × List (κ × β) :=
  match mapLookup store k with
  | some v => (v, store)
  | none =>
      let v := fallback ()
      (v, (k, v) :: store)

/-- Embedding of `DefaultMap.fetch` (src/function.js lines 197-200), i.e. of
`if (!this.store.has(key)) this.store.set(key, fallback()); return
this.store.get(key)`, and equivalently of `retrieve` (src/descorators.js
lines 183-186). The fallback may carry auxiliary state `σ` (the model of its
closed-over effects) and may throw; when it throws, the `set` never runs and
the error propagates. The final component reports whether the fallback was
invoked. -/
def dmFetch {σ : Type} (store : CacheTable) (k : String)
    (fallback : σ → (Except JSError JSValue) × σ) (s : σ) :
    (Except JSError JSValue) × CacheTable × σ × Bool :=
  match mapLookup store k with
  | some v => (.ok v, store, s, false)
  | none =>
      match fallback s with
      | (.ok v, s1) => (.ok v, (k, v) :: store, s1, true)
      | (.error e, s1) => (.error e, store, s1, true)

/-- Embedding of `Cache.fetch(context, parameters, fallback)`
(src/function.js lines 254-256): resolve the receiver scope through the
outer `DefaultMap` (creating it on first use), hash the parameters, then go
through the inner `DefaultMap.fetch`. The updated inner table is written
back to the receiver entry, the model of the in-place mutation of the shared
inner map object. -/
def cacheFetch {σ : Type} (st : CacheState) (ctx : Nat) (params : List JSValue)
    (fallback : σ → (Except JSError JSValue) × σ) (s : σ) :
    (Except JSError JSValue) × CacheState × σ × Bool :=
  let (t, tables1) := dmGet st.tables ctx (fun _ => [])
  let (k, reg1) := keyFrom params st.reg
  let (res, t1, s1, invoked) := dmFetch t k fallback s
  (res, ⟨reg1, (ctx, t1) :: tables1⟩, s1, invoked)

/-- Embedding of the memoized-class constructor
(src/function.js lines 141-150): `new MemoizedClass(...parameters)` returns
`cache.fetch(target, parameters, () => new target(...parameters))`; the
context is the fixed `target` and the compute thunk allocates a fresh
instance, modelled as a fresh reference from an allocation counter. -/
def memoizedConstruct (target : Nat) (st : CacheState) (alloc : Nat)
    (params : List JSValue) :
    (Except JSError JSValue) × CacheState × Nat × Bool :=
  cacheFetch st target params (fun n => (.ok (JSValue.ref n), n + 1)) alloc

/-- Extension order on registry states: every assigned id is preserved. -/
def regLe (s s1 : RegState) : Prop :=
  ∀ a n, s.lookup a = some n → s1.lookup a = some n

theorem regLe_refl (s : RegState) : regLe s s := fun _ _ h => h

theorem regLe_trans {s1 s2 s3 : RegState} (h1 : regLe s1 s2)
    (h2 : regLe s2 s3) : regLe s1 s3 :=
  fun a n h => h2 a n (h1 a n h)

theorem retrieveRef_of_lookup {a n : Nat} {s : RegState}
    (h : s.lookup a = some n) : retrieveRef a s = (n, s) := by
  unfold retrieveRef
  rw [h]

theorem retrieveRef_le (a : Nat) (s : RegState) : regLe s (retrieveRef a s).2 := by
  intro b n hb
  unfold retrieveRef
  cases h : s.lookup a with
  | some m => exact hb
  | none =>
      have hab : a ≠ b := by
        intro he
        subst he
        rw [hb] at h
        cases h
      simp only [RegState.lookup, mapLookup, if_neg hab]
      exact hb

theorem retrieveRef_lookup (a : Nat) (s : RegState) :
    (retrieveRef a s).2.lookup a = some (retrieveRef a s).1 := by
  unfold retrieveRef
  cases h : s.lookup a with
  | some n => exact h
  | none => simp [RegState.lookup, mapLookup]

theorem tokenFor_le (v : JSValue) (s : RegState) : regLe s (tokenFor v s).2 := by
  cases v <;> first
    | exact regLe_refl _
    | exact retrieveRef_le _ _

theorem keyTokens_le (l : List JSValue) (s : RegState) :
    regLe s (keyTokens l s).2 := by
  induction l generalizing s with
  | nil => exact regLe_refl _
  | cons v vs ih =>
      exact regLe_trans (tokenFor_le v s) (ih (tokenFor v s).2)

theorem tokenFor_stable {v : JSValue} {s s2 : RegState}
    (h : regLe (tokenFor v s).2 s2) :
    tokenFor v s2 = ((tokenFor v s).1, s2) := by
  cases v with
  | ref a =>
      have hl : s2.lookup a = some (retrieveRef a s).1 :=
        h a _ (retrieveRef_lookup a s)
      show tokenFor (JSValue.ref a) s2 = _
      simp only [tokenFor, retrieveRef_of_lookup hl]
  | null => rfl
  | undef => rfl
  | bool b => rfl
  | num i => rfl
  | str t => rfl

theorem keyTokens_stable {l : List JSValue} {s s2 : RegState}
    (h : regLe (keyTokens l s).2 s2) :
    keyTokens l s2 = ((keyTokens l s).1, s2) := by
  induction l generalizing s with
  | nil => rfl
  | cons v vs ih =>
      have h1 : regLe (tokenFor v s).2 s2 :=
        regLe_trans (keyTokens_le vs (tokenFor v s).2) h
      have ht := tokenFor_stable h1
      have htl := ih (s := (tokenFor v s).2) h
      show keyTokens (v :: vs) s2 = _
      simp only [keyTokens, ht, htl]

theorem keyFrom_le (l : List JSValue) (s : RegState) : regLe s (keyFrom l s).2 :=
  keyTokens_le l s

theorem keyFrom_stable {l : List JSValue} {s s2 : RegState}
    (h : regLe (keyFrom l s).2 s2) :
    keyFrom l s2 = ((keyFrom l s).1, s2) := by
  have h1 : regLe (keyTokens l s).2 s2 := h
  have hk := keyTokens_stable h1
  simp only [keyFrom, hk]

/-- The ids stored in the registry, most recently assigned first. -/
def idsOf (s : RegState) : List Nat := s.table.map Prod.snd

/-- Registry well-formedness: the counter starts at 1 and only grows, every
stored id is at least 1 and below the counter, and the stored ids are
strictly decreasing from the most recent entry (equivalently, ids are
assigned in strictly increasing order of first registration). -/
def RegInv (s : RegState) : Prop :=
  1 ≤ s.next ∧ (∀ p ∈ s.table, 1 ≤ p.2 ∧ p.2 < s.next) ∧
    List.Pairwise (· > ·) (idsOf s)

theorem regInv_init : RegInv regInit := by
  refine ⟨Nat.le_refl 1, ?_, ?_⟩ <;> simp [regInit, idsOf]

theorem retrieveRef_of_lookup_none {a : Nat} {s : RegState}
    (h : s.lookup a = none) :
    retrieveRef a s = (s.next, ⟨s.next + 1, (a, s.next) :: s.table⟩) := by
  unfold retrieveRef
  rw [h]

theorem regInv_retrieve (a : Nat) {s : RegState} (h : RegInv s) :
    RegInv (retrieveRef a s).2 := by
  obtain ⟨h1, h2, h3⟩ := h
  cases hl : s.lookup a with
  | some n => rw [retrieveRef_of_lookup hl]; exact ⟨h1, h2, h3⟩
  | none =>
      rw [retrieveRef_of_lookup_none hl]
      show RegInv ⟨s.next + 1, (a, s.next) :: s.table⟩
      refine ⟨Nat.le_succ_of_le h1, ?_, ?_⟩
      · intro p hp
        rw [List.mem_cons] at hp
        rcases hp with rfl | hp
        · exact ⟨h1, Nat.lt_succ_self _⟩
        · have hb := h2 p hp
          exact ⟨hb.1, Nat.lt_succ_of_lt hb.2⟩
      · show List.Pairwise (· > ·) (s.next :: idsOf s)
        refine List.Pairwise.cons ?_ h3
        intro b hb
        rw [idsOf, List.mem_map] at hb
        obtain ⟨p, hp, rfl⟩ := hb
        exact (h2 p hp).2

theorem regInv_runReg (l : List Nat) : RegInv (runReg l) := by
  have haux : ∀ (m : List Nat) (s : RegState), RegInv s →
      RegInv (m.foldl (fun s a => (retrieveRef a s).2) s) := by
    intro m
    induction m with
    | nil => exact fun s h => h
    | cons a m ih => exact fun s h => ih _ (regInv_retrieve a h)
  exact haux l regInit regInv_init

theorem mapLookup_mem {κ β : Type} [DecidableEq κ] {t : List (κ × β)} {k : κ}
    {v : β} (h : mapLookup t k = some v) : (k, v) ∈ t := by
  induction t with
  | nil => cases h
  | cons p t ih =>
      obtain ⟨a, b⟩ := p
      simp only [mapLookup] at h
      split at h
      · next hak =>
          injection h with hbv
          subst hbv
          subst hak
          exact List.mem_cons_self _ _
      · next hak => exact List.mem_cons_of_mem _ (ih h)

theorem snd_inj_of_pairwise {t : List (Nat × Nat)}
    (h : List.Pairwise (· ≠ ·) (t.map Prod.snd)) {a b i : Nat}
    (ha : (a, i) ∈ t) (hb : (b, i) ∈ t) : a = b := by
  induction t with
  | nil => cases ha
  | cons p t ih =>
      obtain ⟨x, y⟩ := p
      rw [List.map_cons] at h
      obtain ⟨hhead, htail⟩ := List.pairwise_cons.mp h
      rw [List.mem_cons] at ha hb
      rcases ha with ha | ha
      · rcases hb with hb | hb
        · injection ha with ha1 ha2
          injection hb with hb1 hb2
          exact ha1.trans hb1.symm
        · exfalso
          injection ha with ha1 ha2
          refine hhead i ?_ ha2.symm
          rw [List.mem_map]
          exact ⟨(b, i), hb, rfl⟩
      · rcases hb with hb | hb
        · exfalso
          injection hb with hb1 hb2
          refine hhead i ?_ hb2.symm
          rw [List.mem_map]
          exact ⟨(a, i), ha, rfl⟩
        · exact ih htail ha hb

/-- C8: in any state reachable by a sequence of registrations, two registered
references carry the same id exactly when they are the identical reference;
ids are assigned monotonically from the process-wide counter (the stored id
list, most recent first, is strictly decreasing) and never reused while the
reference is alive (every live id stays bound, is at least 1 and below the
counter). -/
theorem registry_ids_faithful (l : List Nat) (a b ia ib : Nat)
    (ha : (runReg l).lookup a = some ia)
    (hb : (runReg l).lookup b = some ib) :
    (ia = ib ↔ a = b) ∧ List.Pairwise (· > ·) (idsOf (runReg l)) ∧
      1 ≤ ia ∧ ia < (runReg l).next := by
  obtain ⟨h1, h2, h3⟩ := regInv_runReg l
  have hma := mapLookup_mem ha
  have hmb := mapLookup_mem hb
  refine ⟨⟨?_, ?_⟩, h3, (h2 _ hma).1, (h2 _ hma).2⟩
  · intro he
    subst he
    exact snd_inj_of_pairwise (h3.imp fun h => Nat.ne_of_gt h) hma hmb
  · intro he
    subst he
    rw [ha] at hb
    injection hb

/-- Witness for registry_ids_faithful: a concrete run registering two
distinct references, which receive the distinct ids 1 and 2. -/
theorem registry_ids_faithful_witness :
    ((1 : Nat) = 2 ↔ (10 : Nat) = 20) ∧
      List.Pairwise (· > ·) (idsOf (runReg [10, 20])) ∧
      1 ≤ 1 ∧ 1 < (runReg [10, 20]).next :=
  registry_ids_faithful [10, 20] 10 20 1 2 (by decide) (by decide)

/-- Count of separator-position commas: commas seen while the number of
preceding quote characters is even (the flag carries the evenness). -/
def sepCommas : List Char → Bool → Nat
  | [], _ => 0
  | c :: cs, e =>
      if c = '"' then sepCommas cs (!e)
      else if c = ',' then (if e then 1 else 0) + sepCommas cs e
      else sepCommas cs e

/-- Evenness of the quote count after a character list, threaded left to
right. -/
def quoteParity : List Char → Bool → Bool
  | [], e => e
  | c :: cs, e => quoteParity cs (if c = '"' then !e else e)

theorem sepCommas_append (a b : List Char) (e : Bool) :
    sepCommas (a ++ b) e = sepCommas a e + sepCommas b (quoteParity a e) := by
  induction a generalizing e with
  | nil => simp [sepCommas, quoteParity]
  | cons c cs ih =>
      by_cases hq : c = '"'
      · subst hq
        simp only [List.cons_append, sepCommas, quoteParity, if_pos rfl]
        exact ih (!e)
      · by_cases hc : c = ','
        · subst hc
          have step : ∀ (l : List Char) (e : Bool), sepCommas (',' :: l) e
              = (if e then 1 else 0) + sepCommas l e := fun l e => rfl
          have stepq : ∀ (e : Bool), quoteParity (',' :: cs) e = quoteParity cs e :=
            fun e => rfl
          rw [List.cons_append, step, step, stepq, ih e]
          omega
        · simp only [List.cons_append, sepCommas, quoteParity, if_neg hq,
            if_neg hc]
          exact ih e

theorem quoteParity_append (a b : List Char) (e : Bool) :
    quoteParity (a ++ b) e = quoteParity b (quoteParity a e) := by
  induction a generalizing e with
  | nil => rfl
  | cons c cs ih =>
      simp only [List.cons_append, quoteParity]
      exact ih _

theorem sepCommas_clean {cs : List Char} (e : Bool)
    (h : ∀ c ∈ cs, c ≠ '"' ∧ c ≠ ',') : sepCommas cs e = 0 := by
  induction cs with
  | nil => rfl
  | cons c cs ih =>
      obtain ⟨h1, h2⟩ := h c (List.mem_cons_self c cs)
      simp only [sepCommas, if_neg h1, if_neg h2]
      exact ih fun d hd => h d (List.mem_cons_of_mem _ hd)

theorem quoteParity_clean {cs : List Char} (e : Bool)
    (h : ∀ c ∈ cs, c ≠ '"') : quoteParity cs e = e := by
  induction cs generalizing e with
  | nil => rfl
  | cons c cs ih =>
      have h1 := h c (List.mem_cons_self c cs)
      simp only [quoteParity, if_neg h1]
      exact ih e fun d hd => h d (List.mem_cons_of_mem _ hd)

theorem sepCommas_false_of_no_quote {cs : List Char}
    (h : ∀ c ∈ cs, c ≠ '"') : sepCommas cs false = 0 := by
  induction cs with
  | nil => rfl
  | cons c cs ih =>
      have h1 := h c (List.mem_cons_self c cs)
      have ih1 := ih fun d hd => h d (List.mem_cons_of_mem _ hd)
      by_cases hc : c = ','
      · subst hc
        have step : sepCommas (',' :: cs) false
            = (if false then 1 else 0) + sepCommas cs false := rfl
        rw [step, ih1]
        rfl
      · simp only [sepCommas, if_neg h1, if_neg hc]
        exact ih1

theorem digitChar_ne {k : Nat} (hk : k < 10) :
    digitChar k ≠ '"' ∧ digitChar k ≠ ',' := by
  interval_cases k <;> exact ⟨by decide, by decide⟩

theorem natDigitsAux_ne (fuel : Nat) :
    ∀ (n : Nat), ∀ c ∈ natDigitsAux fuel n, c ≠ '"' ∧ c ≠ ',' := by
  induction fuel with
  | zero =>
      intro n c hc
      cases hc
  | succ fuel ih =>
      intro n c hc
      rw [natDigitsAux] at hc
      split at hc
      · next h =>
          rw [List.mem_singleton] at hc
          subst hc
          exact digitChar_ne h
      · next h =>
          rw [List.mem_append] at hc
          rcases hc with hc | hc
          · exact ih (n / 10) c hc
          · rw [List.mem_singleton] at hc
            subst hc
            exact digitChar_ne (Nat.mod_lt _ (by omega))

theorem natDigits_ne (n : Nat) : ∀ c ∈ natDigits n, c ≠ '"' ∧ c ≠ ',' :=
  natDigitsAux_ne (n + 1) n

theorem natDigits_ne_nil (n : Nat) : natDigits n ≠ [] := by
  show natDigitsAux (n + 1) n ≠ []
  rw [natDigitsAux]
  split
  · exact List.cons_ne_nil _ _
  · simp

theorem renderInt_ne (i : Int) : ∀ c ∈ (renderInt i).data, c ≠ '"' ∧ c ≠ ',' := by
  cases i with
  | ofNat n => exact natDigits_ne n
  | negSucc n =>
      intro c hc
      have hd : (renderInt (Int.negSucc n)).data = '-' :: natDigits (n + 1) := rfl
      rw [hd, List.mem_cons] at hc
      rcases hc with rfl | hc
      · exact ⟨by decide, by decide⟩
      · exact natDigits_ne (n + 1) c hc

theorem renderInt_ne_nil (i : Int) : (renderInt i).data ≠ [] := by
  cases i with
  | ofNat n => exact natDigits_ne_nil n
  | negSucc n => exact List.cons_ne_nil _ _

theorem jsReplaceFirstChar_self (cs : List Char) (p : Char) :
    jsReplaceFirstChar cs p [p] = cs := by
  induction cs with
  | nil => rfl
  | cons c cs ih =>
      by_cases h : c = p
      · subst h
        simp [jsReplaceFirstChar]
      · simp [jsReplaceFirstChar, h, ih]

/-- The quoting step of the key builder is the identity: replacing the first
quote by the one-character replacement string `'\"'` (which in JavaScript is
just `"`) changes nothing. -/
theorem jsReplaceFirst_self (t : String) : jsReplaceFirst t '"' "\"" = t := by
  unfold jsReplaceFirst
  rw [show ("\"" : String).data = ['"'] from rfl, jsReplaceFirstChar_self]

/-- A join-clean token: no separator-position comma, an even number of
quotes, and at least one character. -/
def goodTok (t : String) : Prop :=
  sepCommas t.data true = 0 ∧ quoteParity t.data true = true ∧ t.data ≠ []

/-- Strings free of quote characters (true for every non-string value). -/
def quoteFreeB : JSValue → Bool
  | .str s => if '"' ∈ s.data then false else true
  | _ => true

theorem tokenFor_good {v : JSValue} (hv : quoteFreeB v = true) (s : RegState) :
    goodTok (tokenFor v s).1 := by
  cases v with
  | null => exact show goodTok "null" from ⟨by decide, by decide, by decide⟩
  | undef =>
      exact show goodTok "undefined" from ⟨by decide, by decide, by decide⟩
  | bool b =>
      cases b
      · exact show goodTok "false" from ⟨by decide, by decide, by decide⟩
      · exact show goodTok "true" from ⟨by decide, by decide, by decide⟩
  | num i =>
      refine ⟨sepCommas_clean true (renderInt_ne i), ?_, renderInt_ne_nil i⟩
      exact quoteParity_clean true fun c hc => (renderInt_ne i c hc).1
  | ref a =>
      have hd : (tokenFor (JSValue.ref a) s).1.data
          = '<' :: (natDigits (retrieveRef a s).1 ++ ['>']) := rfl
      have hmem : ∀ c ∈ (tokenFor (JSValue.ref a) s).1.data,
          c ≠ '"' ∧ c ≠ ',' := by
        intro c hc
        rw [hd, List.mem_cons, List.mem_append, List.mem_singleton] at hc
        rcases hc with rfl | hc | rfl
        · exact ⟨by decide, by decide⟩
        · exact natDigits_ne _ c hc
        · exact ⟨by decide, by decide⟩
      refine ⟨sepCommas_clean true hmem, ?_, ?_⟩
      · exact quoteParity_clean true fun c hc => (hmem c hc).1
      · rw [hd]
        exact List.cons_ne_nil _ _
  | str t =>
      have hqf : '"' ∉ t.data := by
        by_contra hmem
        simp [quoteFreeB, hmem] at hv
      have hne : ∀ c ∈ t.data, c ≠ '"' := fun c hc he => hqf (he ▸ hc)
      have hd : (tokenFor (JSValue.str t) s).1.data
          = '"' :: (t.data ++ ['"']) := by
        show ("\"" ++ jsReplaceFirst t '"' "\"" ++ "\"").data = _
        rw [jsReplaceFirst_self]
        rfl
      refine ⟨?_, ?_, ?_⟩
      · rw [hd]
        have s1 : sepCommas ('"' :: (t.data ++ ['"'])) true
            = sepCommas (t.data ++ ['"']) false := rfl
        rw [s1, sepCommas_append, sepCommas_false_of_no_quote hne,
          quoteParity_clean false hne]
        rfl
      · rw [hd]
        have p1 : quoteParity ('"' :: (t.data ++ ['"'])) true
            = quoteParity (t.data ++ ['"']) false := rfl
        rw [p1, quoteParity_append, quoteParity_clean false hne]
        rfl
      · rw [hd]
        exact List.cons_ne_nil _ _

theorem keyTokens_cons (v : JSValue) (vs : List JSValue) (s : RegState) :
    (keyTokens (v :: vs) s).1
      = (tokenFor v s).1 :: (keyTokens vs (tokenFor v s).2).1 := rfl

theorem keyTokens_length (l : List JSValue) (s : RegState) :
    (keyTokens l s).1.length = l.length := by
  induction l generalizing s with
  | nil => rfl
  | cons v vs ih =>
      rw [keyTokens_cons, List.length_cons, List.length_cons, ih]

theorem keyTokens_good {l : List JSValue} (hl : ∀ v ∈ l, quoteFreeB v = true)
    (s : RegState) : ∀ t ∈ (keyTokens l s).1, goodTok t := by
  induction l generalizing s with
  | nil =>
      intro t ht
      cases ht
  | cons v vs ih =>
      intro t ht
      rw [keyTokens_cons, List.mem_cons] at ht
      rcases ht with rfl | ht
      · exact tokenFor_good (hl v (List.mem_cons_self _ _)) s
      · exact ih (fun w hw => hl w (List.mem_cons_of_mem _ hw)) _ t ht

theorem joinComma_cons_cons (t u : String) (us : List String) :
    (joinComma (t :: u :: us)).data
      = (t.data ++ [',']) ++ (joinComma (u :: us)).data := rfl

theorem sepCommas_joinComma {ts : List String} (h : ∀ t ∈ ts, goodTok t) :
    sepCommas (joinComma ts).data true = ts.length - 1 := by
  induction ts with
  | nil => rfl
  | cons t ts ih =>
      cases ts with
      | nil => exact (h t (List.mem_cons_self _ _)).1
      | cons u us =>
          have hg := h t (List.mem_cons_self _ _)
          rw [joinComma_cons_cons, List.append_assoc, sepCommas_append,
            hg.1, hg.2.1]
          have step : sepCommas ([','] ++ (joinComma (u :: us)).data) true
              = 1 + sepCommas (joinComma (u :: us)).data true := rfl
          rw [step, ih (fun w hw => h w (List.mem_cons_of_mem _ hw))]
          simp only [List.length_cons]
          omega

theorem joinComma_ne_empty {ts : List String} (hne : ts ≠ [])
    (h : ∀ t ∈ ts, t.data ≠ []) : (joinComma ts).data ≠ [] := by
  cases ts with
  | nil => exact absurd rfl hne
  | cons t ts =>
      cases ts with
      | nil => exact h t (List.mem_cons_self _ _)
      | cons u us =>
          rw [joinComma_cons_cons]
          intro hcon
          rcases List.append_eq_nil.mp hcon with ⟨hl, _⟩
          rcases List.append_eq_nil.mp hl with ⟨_, hr⟩
          simp at hr

/-- C1 counterexample: the claim fails as stated. The one-element argument
list holding the single string `a","b` and the two-element list holding the
strings `a` and `b` have different lengths yet produce the identical
composite key (the quoting step never escapes the embedded quotes, so the
quotes and comma inside the single string reproduce the two-token form). -/
theorem keyFrom_length_collision :
    (keyFrom [JSValue.str "a\",\"b"] regInit).1
      = (keyFrom [JSValue.str "a", JSValue.str "b"] regInit).1 ∧
    ([JSValue.str "a\",\"b"] : List JSValue).length
      ≠ ([JSValue.str "a", JSValue.str "b"] : List JSValue).length :=
  ⟨by decide, by decide⟩

/-- C1 (amended): for every pair of argument lists of different length in
which no string argument contains a quote character, the composite-key
builder produces different key strings (so such lists never share a cache
entry), whatever the registry states. -/
theorem keyFrom_length_separates (l1 l2 : List JSValue) (s1 s2 : RegState)
    (h1 : ∀ v ∈ l1, quoteFreeB v = true) (h2 : ∀ v ∈ l2, quoteFreeB v = true)
    (hlen : l1.length ≠ l2.length) :
    (keyFrom l1 s1).1 ≠ (keyFrom l2 s2).1 := by
  intro he
  have hdata : (joinComma (keyTokens l1 s1).1).data
      = (joinComma (keyTokens l2 s2).1).data := by
    show ((keyFrom l1 s1).1).data = ((keyFrom l2 s2).1).data
    rw [he]
  have hg1 := keyTokens_good h1 s1
  have hg2 := keyTokens_good h2 s2
  have hc1 := sepCommas_joinComma hg1
  have hc2 := sepCommas_joinComma hg2
  rw [keyTokens_length] at hc1 hc2
  rw [hdata, hc2] at hc1
  rcases Nat.eq_zero_or_pos l1.length with hz1 | hp1
  · have hz2 : 0 < l2.length := by omega
    have hl1 : l1 = [] := List.length_eq_zero.mp hz1
    subst hl1
    have hd1 : (joinComma (keyTokens ([] : List JSValue) s1).1).data = [] := rfl
    have hT2 : (keyTokens l2 s2).1 ≠ [] := by
      intro hT
      have hlen2 := keyTokens_length l2 s2
      rw [hT, List.length_nil] at hlen2
      omega
    have hd2 : (joinComma (keyTokens l2 s2).1).data = [] := by
      rw [← hdata]
      exact hd1
    exact joinComma_ne_empty hT2 (fun t ht => (hg2 t ht).2.2) hd2
  · rcases Nat.eq_zero_or_pos l2.length with hz2 | hp2
    · have hl2 : l2 = [] := List.length_eq_zero.mp hz2
      subst hl2
      have hd2 : (joinComma (keyTokens ([] : List JSValue) s2).1).data = [] := rfl
      have hT1 : (keyTokens l1 s1).1 ≠ [] := by
        intro hT
        have hlen1 := keyTokens_length l1 s1
        rw [hT, List.length_nil] at hlen1
        omega
      have hd1 : (joinComma (keyTokens l1 s1).1).data = [] := by
        rw [hdata]
        exact hd2
      exact joinComma_ne_empty hT1 (fun t ht => (hg1 t ht).2.2) hd1
    · omega

/-- Witness for keyFrom_length_separates: quote-free lists of lengths 1 and
2 receive different keys. -/
theorem keyFrom_length_separates_witness :
    (keyFrom [JSValue.num 1] regInit).1
      ≠ (keyFrom [JSValue.num 1, JSValue.num 2] regInit).1 :=
  keyFrom_length_separates _ _ _ _ (by decide) (by decide) (by decide)

theorem mapLookup_cons_self {κ β : Type} [DecidableEq κ] (k : κ) (v : β)
    (t : List (κ × β)) : mapLookup ((k, v) :: t) k = some v := by
  simp [mapLookup]

theorem dmGet_fst {κ β : Type} [DecidableEq κ] (store : List (κ × β)) (k : κ)
    (fb : Unit → β) : (dmGet store k fb).1 = (mapLookup store k).getD (fb ()) := by
  unfold dmGet
  cases mapLookup store k <;> rfl

theorem dmFetch_hit {σ : Type} {store : CacheTable} {k : String} {v : JSValue}
    (h : mapLookup store k = some v) (fb : σ → (Except JSError JSValue) × σ)
    (s : σ) : dmFetch store k fb s = (.ok v, store, s, false) := by
  unfold dmFetch
  rw [h]

theorem dmFetch_miss_ok {σ : Type} {store : CacheTable} {k : String}
    {fb : σ → (Except JSError JSValue) × σ} {s : σ} {v : JSValue} {s1 : σ}
    (h : mapLookup store k = none) (hf : fb s = (.ok v, s1)) :
    dmFetch store k fb s = (.ok v, (k, v) :: store, s1, true) := by
  unfold dmFetch
  rw [h, hf]

theorem dmFetch_miss_error {σ : Type} {store : CacheTable} {k : String}
    {fb : σ → (Except JSError JSValue) × σ} {s : σ} {e : JSError} {s1 : σ}
    (h : mapLookup store k = none) (hf : fb s = (.error e, s1)) :
    dmFetch store k fb s = (.error e, store, s1, true) := by
  unfold dmFetch
  rw [h, hf]

theorem cacheFetch_eq {σ : Type} (st : CacheState) (ctx : Nat)
    (params : List JSValue) (fb : σ → (Except JSError JSValue) × σ) (s : σ) :
    cacheFetch st ctx params fb s
      = ((dmFetch (dmGet st.tables ctx (fun _ => [])).1
            (keyFrom params st.reg).1 fb s).1,
         ⟨(keyFrom params st.reg).2,
          (ctx, (dmFetch (dmGet st.tables ctx (fun _ => [])).1
            (keyFrom params st.reg).1 fb s).2.1)
            :: (dmGet st.tables ctx (fun _ => [])).2⟩,
         (dmFetch (dmGet st.tables ctx (fun _ => [])).1
            (keyFrom params st.reg).1 fb s).2.2.1,
         (dmFetch (dmGet st.tables ctx (fun _ => [])).1
            (keyFrom params st.reg).1 fb s).2.2.2) := rfl

/-- A fetch that finds a stored value for the key: returns it without
invoking the compute thunk, leaving the receiver table unchanged. -/
theorem cacheFetch_hit {σ : Type} (st : CacheState) (ctx : Nat)
    (params : List JSValue) (fb : σ → (Except JSError JSValue) × σ) (s : σ)
    {v : JSValue}
    (hk : mapLookup ((mapLookup st.tables ctx).getD [])
        (keyFrom params st.reg).1 = some v) :
    cacheFetch st ctx params fb s
      = (.ok v,
         ⟨(keyFrom params st.reg).2,
          (ctx, (mapLookup st.tables ctx).getD [])
            :: (dmGet st.tables ctx (fun _ => [])).2⟩,
         s, false) := by
  have hk1 : mapLookup (dmGet st.tables ctx (fun _ => [])).1
      (keyFrom params st.reg).1 = some v := by
    rw [dmGet_fst]
    exact hk
  rw [cacheFetch_eq, dmFetch_hit hk1, dmGet_fst]

/-- A fetch that misses and whose compute thunk succeeds: stores and returns
the computed value, marking the thunk invoked. -/
theorem cacheFetch_miss_ok {σ : Type} (st : CacheState) (ctx : Nat)
    (params : List JSValue) (fb : σ → (Except JSError JSValue) × σ) (s : σ)
    {v : JSValue} {s1 : σ}
    (habs : mapLookup ((mapLookup st.tables ctx).getD [])
        (keyFrom params st.reg).1 = none)
    (hf : fb s = (.ok v, s1)) :
    cacheFetch st ctx params fb s
      = (.ok v,
         ⟨(keyFrom params st.reg).2,
          (ctx, ((keyFrom params st.reg).1, v)
              :: (mapLookup st.tables ctx).getD [])
            :: (dmGet st.tables ctx (fun _ => [])).2⟩,
         s1, true) := by
  have hk1 : mapLookup (dmGet st.tables ctx (fun _ => [])).1
      (keyFrom params st.reg).1 = none := by
    rw [dmGet_fst]
    exact habs
  rw [cacheFetch_eq, dmFetch_miss_ok hk1 hf, dmGet_fst]

/-- A fetch that misses and whose compute thunk throws: the error comes back,
the thunk counts as invoked, and the receiver table is left without an entry
for the key. -/
theorem cacheFetch_miss_error {σ : Type} (st : CacheState) (ctx : Nat)
    (params : List JSValue) (fb : σ → (Except JSError JSValue) × σ) (s : σ)
    {e : JSError} {s1 : σ}
    (habs : mapLookup ((mapLookup st.tables ctx).getD [])
        (keyFrom params st.reg).1 = none)
    (hf : fb s = (.error e, s1)) :
    cacheFetch st ctx params fb s
      = (.error e,
         ⟨(keyFrom params st.reg).2,
          (ctx, (mapLookup st.tables ctx).getD [])
            :: (dmGet st.tables ctx (fun _ => [])).2⟩,
         s1, true) := by
  have hk1 : mapLookup (dmGet st.tables ctx (fun _ => [])).1
      (keyFrom params st.reg).1 = none := by
    rw [dmGet_fst]
    exact habs
  rw [cacheFetch_eq, dmFetch_miss_error hk1 hf, dmGet_fst]

/-- Per-argument token as the spec describes it, for a fixed id assignment,
with the string case verbatim (no escaping). -/
def specToken (idOf : Nat → Nat) : JSValue → String
  | .null => "null"
  | .undef => "undefined"
  | .ref a => "<" ++ renderNat (idOf a) ++ ">"
  | .str t => "\"" ++ t ++ "\""
  | .bool b => if b then "true" else "false"
  | .num i => renderInt i

/-- Full escaping of quote characters (a backslash before each quote): the
reading of the claim's words "embedded quote characters escaped". -/
def escapeQuotes : List Char → List Char
  | [] => []
  | c :: cs =>
      if c = '"' then '\\' :: '"' :: escapeQuotes cs
      else c :: escapeQuotes cs

/-- Per-argument token as literally claimed: quoted and escaped strings. -/
def specTokenEscaped (idOf : Nat → Nat) : JSValue → String
  | .str t => "\"" ++ String.mk (escapeQuotes t.data) ++ "\""
  | v => specToken idOf v

theorem keyTokens_spec {l : List JSValue} {s s2 : RegState}
    (h : regLe (keyTokens l s).2 s2) :
    (keyTokens l s).1
      = l.map (specToken (fun a => (s2.lookup a).getD 0)) := by
  induction l generalizing s with
  | nil => rfl
  | cons v vs ih =>
      have h1 : regLe (tokenFor v s).2 s2 :=
        regLe_trans (keyTokens_le vs (tokenFor v s).2) h
      rw [keyTokens_cons, List.map_cons]
      congr 1
      · cases v with
        | ref a =>
            have hl : s2.lookup a = some (retrieveRef a s).1 :=
              h1 a _ (retrieveRef_lookup a s)
            show ("<" ++ renderNat (retrieveRef a s).1 ++ ">" : String)
                = "<" ++ renderNat ((s2.lookup a).getD 0) ++ ">"
            rw [hl]
            rfl
        | str t =>
            show ("\"" ++ jsReplaceFirst t '"' "\"" ++ "\"" : String)
                = "\"" ++ t ++ "\""
            rw [jsReplaceFirst_self]
        | null => rfl
        | undef => rfl
        | bool b => rfl
        | num i => rfl
      · exact ih h

/-- C5 (amended): the composite key equals the comma-join of per-argument
tokens in argument order, where null and undefined map to their literals,
every object or function maps to its angle-bracket-wrapped surrogate id as
recorded in the registry once the key is built, every other primitive maps
to its plain literal text, and every string maps to a quoted literal whose
text is unchanged — the escape step replaces the first quote character with
itself and is a no-op, so embedded quote characters are never escaped. -/
theorem keyFrom_token_join (l : List JSValue) (s : RegState) :
    (keyFrom l s).1
      = joinComma (l.map (specToken
          (fun a => (((keyFrom l s).2).lookup a).getD 0))) := by
  show joinComma (keyTokens l s).1 = _
  rw [keyTokens_spec (regLe_refl (keyTokens l s).2)]
  rfl

/-- C5 counterexample: on the one-element list holding the string that
consists of a single quote character, the key the code builds differs from
the claimed join of quoted-and-escaped tokens, whatever the id assignment
(the list has no reference argument). -/
theorem keyFrom_escape_missing :
    (keyFrom [JSValue.str "\""] regInit).1
      ≠ joinComma (([JSValue.str "\""] : List JSValue).map
          (specTokenEscaped (fun _ => 0))) := by
  decide

/-- C2: for a fixed receiver with no stored entry at the key of `A`, a first
fetch whose side-effect-free compute returns `v` yields `v` and invokes the
compute thunk; a second fetch on the resulting state with the same receiver
and any argument list producing the same composite key yields `v` without
invoking its compute thunk, whatever that thunk would have returned. -/
theorem cacheFetch_memoizes (st : CacheState) (ctx : Nat)
    (A B : List JSValue) (v w : JSValue)
    (habs : mapLookup ((mapLookup st.tables ctx).getD [])
        (keyFrom A st.reg).1 = none)
    (hkey : (keyFrom B
        (cacheFetch st ctx A (fun (u : Unit) => (.ok v, u)) ()).2.1.reg).1
        = (keyFrom A st.reg).1) :
    (cacheFetch st ctx A (fun (u : Unit) => (.ok v, u)) ()).1 = .ok v ∧
    (cacheFetch st ctx A (fun (u : Unit) => (.ok v, u)) ()).2.2.2 = true ∧
    (cacheFetch (cacheFetch st ctx A (fun (u : Unit) => (.ok v, u)) ()).2.1
        ctx B (fun (u : Unit) => (.ok w, u)) ()).1 = .ok v ∧
    (cacheFetch (cacheFetch st ctx A (fun (u : Unit) => (.ok v, u)) ()).2.1
        ctx B (fun (u : Unit) => (.ok w, u)) ()).2.2.2 = false := by
  have hr1 := cacheFetch_miss_ok st ctx A
    (fun (u : Unit) => (.ok v, u)) () habs rfl
  have hk2 : mapLookup ((mapLookup
      (cacheFetch st ctx A (fun (u : Unit) => (.ok v, u)) ()).2.1.tables
      ctx).getD [])
      (keyFrom B
        (cacheFetch st ctx A (fun (u : Unit) => (.ok v, u)) ()).2.1.reg).1
      = some v := by
    rw [hkey, hr1]
    show mapLookup ((mapLookup
        ((ctx, ((keyFrom A st.reg).1, v) :: (mapLookup st.tables ctx).getD [])
          :: (dmGet st.tables ctx (fun _ => [])).2) ctx).getD [])
        (keyFrom A st.reg).1 = some v
    rw [mapLookup_cons_self]
    show mapLookup (((keyFrom A st.reg).1, v)
        :: (mapLookup st.tables ctx).getD []) (keyFrom A st.reg).1 = some v
    exact mapLookup_cons_self _ _ _
  have hhit := cacheFetch_hit
    (cacheFetch st ctx A (fun (u : Unit) => (.ok v, u)) ()).2.1 ctx B
    (fun (u : Unit) => (.ok w, u)) () hk2
  exact ⟨by rw [hr1], by rw [hr1], by rw [hhit], by rw [hhit]⟩

/-- Witness for cacheFetch_memoizes on a fresh cache: caching the value 42
under receiver 0 and the arguments (1, "a"). -/
theorem cacheFetch_memoizes_witness :
    (cacheFetch cacheInit 0 [JSValue.num 1, JSValue.str "a"]
        (fun (u : Unit) => (.ok (JSValue.num 42), u)) ()).1
        = .ok (JSValue.num 42) ∧
    (cacheFetch cacheInit 0 [JSValue.num 1, JSValue.str "a"]
        (fun (u : Unit) => (.ok (JSValue.num 42), u)) ()).2.2.2 = true ∧
    (cacheFetch (cacheFetch cacheInit 0 [JSValue.num 1, JSValue.str "a"]
        (fun (u : Unit) => (.ok (JSValue.num 42), u)) ()).2.1
        0 [JSValue.num 1, JSValue.str "a"]
        (fun (u : Unit) => (.ok (JSValue.num 99), u)) ()).1
        = .ok (JSValue.num 42) ∧
    (cacheFetch (cacheFetch cacheInit 0 [JSValue.num 1, JSValue.str "a"]
        (fun (u : Unit) => (.ok (JSValue.num 42), u)) ()).2.1
        0 [JSValue.num 1, JSValue.str "a"]
        (fun (u : Unit) => (.ok (JSValue.num 99), u)) ()).2.2.2 = false :=
  cacheFetch_memoizes cacheInit 0 [JSValue.num 1, JSValue.str "a"]
    [JSValue.num 1, JSValue.str "a"] (JSValue.num 42) (JSValue.num 99)
    (by decide) (by decide)

/-- C3: when the compute thunk throws on a fetch with no stored entry at the
key of `A`, the error comes back unchanged (the thunk was invoked), no cache
entry exists afterwards for that receiver and key, and a subsequent fetch
with the same receiver and arguments re-invokes its compute thunk and
succeeds with its value. -/
theorem cacheFetch_error_propagates (st : CacheState) (ctx : Nat)
    (A : List JSValue) (e : JSError) (v : JSValue)
    (habs : mapLookup ((mapLookup st.tables ctx).getD [])
        (keyFrom A st.reg).1 = none) :
    (cacheFetch st ctx A (fun (u : Unit) => (.error e, u)) ()).1
      = .error e ∧
    (cacheFetch st ctx A (fun (u : Unit) => (.error e, u)) ()).2.2.2
      = true ∧
    mapLookup ((mapLookup
        (cacheFetch st ctx A (fun (u : Unit) => (.error e, u)) ()).2.1.tables
        ctx).getD [])
      (keyFrom A
        (cacheFetch st ctx A (fun (u : Unit) => (.error e, u)) ()).2.1.reg).1
      = none ∧
    (cacheFetch (cacheFetch st ctx A (fun (u : Unit) => (.error e, u)) ()).2.1
        ctx A (fun (u : Unit) => (.ok v, u)) ()).2.2.2 = true ∧
    (cacheFetch (cacheFetch st ctx A (fun (u : Unit) => (.error e, u)) ()).2.1
        ctx A (fun (u : Unit) => (.ok v, u)) ()).1 = .ok v := by
  have hr1 := cacheFetch_miss_error st ctx A
    (fun (u : Unit) => (.error e, u)) () habs rfl
  have hkey : (keyFrom A
      (cacheFetch st ctx A (fun (u : Unit) => (.error e, u)) ()).2.1.reg).1
      = (keyFrom A st.reg).1 := by
    rw [hr1]
    show (keyFrom A (keyFrom A st.reg).2).1 = (keyFrom A st.reg).1
    rw [keyFrom_stable (regLe_refl (keyFrom A st.reg).2)]
  have habs2 : mapLookup ((mapLookup
      (cacheFetch st ctx A (fun (u : Unit) => (.error e, u)) ()).2.1.tables
      ctx).getD [])
      (keyFrom A
        (cacheFetch st ctx A (fun (u : Unit) => (.error e, u)) ()).2.1.reg).1
      = none := by
    rw [hkey, hr1]
    show mapLookup ((mapLookup
        ((ctx, (mapLookup st.tables ctx).getD [])
          :: (dmGet st.tables ctx (fun _ => [])).2) ctx).getD [])
        (keyFrom A st.reg).1 = none
    rw [mapLookup_cons_self]
    exact habs
  have hr2 := cacheFetch_miss_ok
    (cacheFetch st ctx A (fun (u : Unit) => (.error e, u)) ()).2.1 ctx A
    (fun (u : Unit) => (.ok v, u)) () habs2 rfl
  exact ⟨by rw [hr1], by rw [hr1], habs2, by rw [hr2], by rw [hr2]⟩

/-- Witness for cacheFetch_error_propagates on a fresh cache: a throwing
compute for receiver 0 and argument list ("x") is not cached, and the retry
computes the value 7. -/
theorem cacheFetch_error_propagates_witness :
    (cacheFetch cacheInit 0 [JSValue.str "x"]
        (fun (u : Unit) => (.error (JSError.thrown (JSValue.str "boom")), u))
        ()).1 = .error (JSError.thrown (JSValue.str "boom")) ∧
    (cacheFetch cacheInit 0 [JSValue.str "x"]
        (fun (u : Unit) => (.error (JSError.thrown (JSValue.str "boom")), u))
        ()).2.2.2 = true ∧
    mapLookup ((mapLookup
        (cacheFetch cacheInit 0 [JSValue.str "x"]
          (fun (u : Unit) => (.error (JSError.thrown (JSValue.str "boom")), u))
          ()).2.1.tables 0).getD [])
      (keyFrom [JSValue.str "x"]
        (cacheFetch cacheInit 0 [JSValue.str "x"]
          (fun (u : Unit) => (.error (JSError.thrown (JSValue.str "boom")), u))
          ()).2.1.reg).1 = none ∧
    (cacheFetch (cacheFetch cacheInit 0 [JSValue.str "x"]
          (fun (u : Unit) => (.error (JSError.thrown (JSValue.str "boom")), u))
          ()).2.1 0 [JSValue.str "x"]
        (fun (u : Unit) => (.ok (JSValue.num 7), u)) ()).2.2.2 = true ∧
    (cacheFetch (cacheFetch cacheInit 0 [JSValue.str "x"]
          (fun (u : Unit) => (.error (JSError.thrown (JSValue.str "boom")), u))
          ()).2.1 0 [JSValue.str "x"]
        (fun (u : Unit) => (.ok (JSValue.num 7), u)) ()).1
      = .ok (JSValue.num 7) :=
  cacheFetch_error_propagates cacheInit 0 [JSValue.str "x"]
    (JSError.thrown (JSValue.str "boom")) (JSValue.num 7) (by decide)

/-- C9: constructing a memoized class twice with the same parameter list
yields the identical instance: the second construction returns exactly what
the first one returned, whatever the starting cache and allocator state. -/
theorem memoized_class_same_instance (target : Nat) (st : CacheState)
    (alloc : Nat) (params : List JSValue) :
    (memoizedConstruct target
        (memoizedConstruct target st alloc params).2.1
        (memoizedConstruct target st alloc params).2.2.1 params).1
      = (memoizedConstruct target st alloc params).1 := by
  show (cacheFetch (cacheFetch st target params
      (fun n => (.ok (JSValue.ref n), n + 1)) alloc).2.1 target params
      (fun n => (.ok (JSValue.ref n), n + 1))
      (cacheFetch st target params
        (fun n => (.ok (JSValue.ref n), n + 1)) alloc).2.2.1).1
    = (cacheFetch st target params
        (fun n => (.ok (JSValue.ref n), n + 1)) alloc).1
  cases h0 : mapLookup ((mapLookup st.tables target).getD [])
      (keyFrom params st.reg).1 with
  | some v =>
      have hr1 := cacheFetch_hit st target params
        (fun n => (.ok (JSValue.ref n), n + 1)) alloc h0
      have hkey : (keyFrom params (keyFrom params st.reg).2).1
          = (keyFrom params st.reg).1 := by
        rw [keyFrom_stable (regLe_refl (keyFrom params st.reg).2)]
      have hk2 : mapLookup ((mapLookup
          (cacheFetch st target params
            (fun n => (.ok (JSValue.ref n), n + 1)) alloc).2.1.tables
          target).getD [])
          (keyFrom params
            (cacheFetch st target params
              (fun n => (.ok (JSValue.ref n), n + 1)) alloc).2.1.reg).1
          = some v := by
        rw [hr1]
        show mapLookup ((mapLookup
            ((target, (mapLookup st.tables target).getD [])
              :: (dmGet st.tables target (fun _ => [])).2) target).getD [])
            (keyFrom params (keyFrom params st.reg).2).1 = some v
        rw [mapLookup_cons_self, hkey]
        exact h0
      have hr2 := cacheFetch_hit
        (cacheFetch st target params
          (fun n => (.ok (JSValue.ref n), n + 1)) alloc).2.1 target params
        (fun n => (.ok (JSValue.ref n), n + 1))
        (cacheFetch st target params
          (fun n => (.ok (JSValue.ref n), n + 1)) alloc).2.2.1 hk2
      rw [hr2, hr1]
  | none =>
      have hr1 := cacheFetch_miss_ok st target params
        (fun n => (.ok (JSValue.ref n), n + 1)) alloc h0 rfl
      have hkey : (keyFrom params (keyFrom params st.reg).2).1
          = (keyFrom params st.reg).1 := by
        rw [keyFrom_stable (regLe_refl (keyFrom params st.reg).2)]
      have hk2 : mapLookup ((mapLookup
          (cacheFetch st target params
            (fun n => (.ok (JSValue.ref n), n + 1)) alloc).2.1.tables
          target).getD [])
          (keyFrom params
            (cacheFetch st target params
              (fun n => (.ok (JSValue.ref n), n + 1)) alloc).2.1.reg).1
          = some (JSValue.ref alloc) := by
        rw [hr1]
        show mapLookup ((mapLookup
            ((target, ((keyFrom params st.reg).1, JSValue.ref alloc)
                :: (mapLookup st.tables target).getD [])
              :: (dmGet st.tables target (fun _ => [])).2) target).getD [])
            (keyFrom params (keyFrom params st.reg).2).1
            = some (JSValue.ref alloc)
        rw [mapLookup_cons_self, hkey]
        exact mapLookup_cons_self _ _ _
      have hr2 := cacheFetch_hit
        (cacheFetch st target params
          (fun n => (.ok (JSValue.ref n), n + 1)) alloc).2.1 target params
        (fun n => (.ok (JSValue.ref n), n + 1))
        (cacheFetch st target params
          (fun n => (.ok (JSValue.ref n), n + 1)) alloc).2.2.1 hk2
      rw [hr2, hr1]

/-- Closure state of the memoize accessor advice (src/function.js lines
161-178): the decoration-time `let cache, invalid = true` pair. One such
closure exists per decorated accessor and is shared by every instance the
accessor is invoked on. -/
structure AccessorClosure where
  cache : JSValue
  invalid : Bool
deriving DecidableEq, Repr

/-- Fresh closure at decoration time: `cache` starts undefined, `invalid`
starts true. -/
def accessorClosureInit : AccessorClosure := ⟨JSValue.undef, true⟩

/-- Embedding of the advice getter (src/function.js lines 165-171): on an
invalid entry it calls the underlying getter on the current instance, stores
the result and clears the flag; otherwise it returns the stored value. The
final component reports whether the underlying getter was invoked. -/
def accessorGet (getter : Nat → JSValue) (inst : Nat) (st : AccessorClosure) :
    JSValue × AccessorClosure × Bool :=
  if st.invalid then (getter inst, ⟨getter inst, false⟩, true)
  else (st.cache, st, false)

/-- Embedding of the advice setter (src/function.js lines 172-176): clear
the stored value, mark the entry invalid, and return the result of the
underlying setter on the current instance; the final component reports that
the underlying write logic ran, which it always does. -/
def accessorSet (setter : Nat → JSValue → JSValue) (inst : Nat) (v : JSValue)
    (_st : AccessorClosure) : JSValue × AccessorClosure × Bool :=
  (setter inst v, ⟨JSValue.undef, true⟩, true)

/-- The two abstract states the spec ascribes to an accessor cache entry. -/
inductive EntryState where
  | unfilled
  | populated
deriving DecidableEq, Repr

/-- Abstraction from the closure state to the claimed two-state machine:
an invalid entry is Empty (here called unfilled), a valid one Populated. -/
def entryStateOf (st : AccessorClosure) : EntryState :=
  if st.invalid then .unfilled else .populated

/-- C7: the accessor entry ranges over exactly the two abstract states Empty
and Populated, with exactly the claimed transitions: a read in Empty invokes
the getter, stores its result and moves to Populated; a read in Populated
returns the stored value without invoking the getter and leaves the state
unchanged; any write (from either state) invokes the underlying write logic
and lands in Empty — this advice never re-populates on a write. -/
theorem accessor_entry_state_machine (getter : Nat → JSValue)
    (setter : Nat → JSValue → JSValue) (inst : Nat) (v : JSValue)
    (st : AccessorClosure) :
    (entryStateOf st = .unfilled →
      accessorGet getter inst st
        = (getter inst, ⟨getter inst, false⟩, true) ∧
      entryStateOf (accessorGet getter inst st).2.1 = .populated) ∧
    (entryStateOf st = .populated →
      accessorGet getter inst st = (st.cache, st, false)) ∧
    accessorSet setter inst v st
      = (setter inst v, ⟨JSValue.undef, true⟩, true) ∧
    entryStateOf (accessorSet setter inst v st).2.1 = .unfilled := by
  obtain ⟨c, b⟩ := st
  cases b with
  | false =>
      refine ⟨fun h => ?_, fun _ => rfl, rfl, rfl⟩
      simp [entryStateOf] at h
  | true =>
      refine ⟨fun _ => ⟨rfl, rfl⟩, fun h => ?_, rfl, rfl⟩
      simp [entryStateOf] at h

/-- Witness for accessor_entry_state_machine: a first read on a fresh entry
computes and populates. -/
theorem accessor_entry_state_machine_witness :
    accessorGet (fun i => JSValue.num (Int.ofNat i)) 5 accessorClosureInit
      = (JSValue.num 5, ⟨JSValue.num 5, false⟩, true) ∧
    entryStateOf (accessorGet (fun i => JSValue.num (Int.ofNat i)) 5
      accessorClosureInit).2.1 = .populated :=
  (accessor_entry_state_machine (fun i => JSValue.num (Int.ofNat i))
    (fun _ w => w) 5 JSValue.null accessorClosureInit).1 (by decide)

/-- C6, evaluation at the failing input: the memoize accessor advice keeps
`cache`/`invalid` in the single decoration-time closure, so the cached value
is not scoped to the instance. With a getter returning the instance id,
instance 1 reads first; instance 2 then reads instance 1's value — not its
own getter's result — and its own getter is never invoked. -/
theorem memoize_accessor_cross_instance_leak :
    (accessorGet (fun i => JSValue.num (Int.ofNat i)) 2
        (accessorGet (fun i => JSValue.num (Int.ofNat i)) 1
          accessorClosureInit).2.1).1 = JSValue.num 1 ∧
    (accessorGet (fun i => JSValue.num (Int.ofNat i)) 2
        (accessorGet (fun i => JSValue.num (Int.ofNat i)) 1
          accessorClosureInit).2.1).1 ≠ JSValue.num 2 ∧
    (accessorGet (fun i => JSValue.num (Int.ofNat i)) 2
        (accessorGet (fun i => JSValue.num (Int.ofNat i)) 1
          accessorClosureInit).2.1).2.2 = false :=
  ⟨rfl, by decide, rfl⟩

/-- A property descriptor as the decorator protocol passes it; only the
value slot matters to the memoize value advice. -/
structure Descriptor where
  value : Option JSValue
deriving DecidableEq, Repr

/-- Embedding of the memoize value advice (src/function.js lines 151-160,
identically src/unnamed/part_001 lines 246-255): the body builds a local
`memoized` closure and rewires its prototype, but ends without
`return memoized`; a JavaScript function body that falls off its end
evaluates to `undefined`, and the local closure never escapes, so the
advice returns `undefined` for every target. -/
def memoizeValueAdvice (_target : JSValue) : JSValue := JSValue.undef

/-- Embedding of the value branch of the `use` dispatcher (src/use.js lines
91-93): `descriptor.value = aspect.value(descriptor.value)` whenever the
descriptor owns a value slot. -/
def useDecorateValue (advice : JSValue → JSValue) (d : Descriptor) :
    Descriptor :=
  match d.value with
  | some v => ⟨some (advice v)⟩
  | none => d

/-- C4, evaluation at the failing input: decorating any method descriptor
with the memoize value advice replaces the method by `undefined` — the value
slot afterwards holds `undefined` and no reference-typed (callable) value,
so the decorated method is not a callable delegating to the cache. -/
theorem memoize_value_advice_yields_undefined (d : Descriptor) (f : JSValue)
    (h : d.value = some f) :
    (useDecorateValue memoizeValueAdvice d).value = some JSValue.undef ∧
    ∀ addr : Nat, (useDecorateValue memoizeValueAdvice d).value
      ≠ some (JSValue.ref addr) := by
  have hd : useDecorateValue memoizeValueAdvice d = ⟨some JSValue.undef⟩ := by
    unfold useDecorateValue
    rw [h]
    rfl
  rw [hd]
  refine ⟨rfl, fun addr hcon => ?_⟩
  injection hcon with hcon2
  exact JSValue.noConfusion hcon2

/-- Witness for memoize_value_advice_yields_undefined on a descriptor whose
value slot holds a function reference. -/
theorem memoize_value_advice_yields_undefined_witness :
    (useDecorateValue memoizeValueAdvice ⟨some (JSValue.ref 3)⟩).value
      = some JSValue.undef ∧
    ∀ addr : Nat, (useDecorateValue memoizeValueAdvice
      ⟨some (JSValue.ref 3)⟩).value ≠ some (JSValue.ref addr) :=
  memoize_value_advice_yields_undefined ⟨some (JSValue.ref 3)⟩
    (JSValue.ref 3) rfl

theorem mapErase_lookup_self {κ β : Type} [DecidableEq κ]
    (t : List (κ × β)) (k : κ) : mapLookup (mapErase t k) k = none := by
  induction t with
  | nil => rfl
  | cons p t ih =>
      obtain ⟨a, b⟩ := p
      by_cases hak : a = k
      · simp [mapErase, hak, ih]
      · simp [mapErase, mapLookup, hak, ih]

/-- Per-instance accessor cache of the standalone memoize decorator
(src/descorators.js lines 158-163): a `WeakMap` from instance to the cached
getter value. -/
abbrev InstanceCache := List (Nat × JSValue)

/-- Embedding of `memoizedSetter` (src/descorators.js lines 165-174): with a
user-defined setter the cache entry for the instance is overwritten with the
setter's return value; without one, writing `undefined` deletes the entry
while any other value throws a TypeError before the cache is touched; on
success the function returns `cache.get(this)`, which is JavaScript
`undefined` when the entry was just deleted. -/
def memoizedSetter (setter : Option (Nat → JSValue → JSValue)) (inst : Nat)
    (value : JSValue) (cache : InstanceCache) :
    (Except JSError JSValue) × InstanceCache :=
  match setter with
  | some f =>
      let c1 := (inst, f inst value) :: mapErase cache inst
      (.ok ((mapLookup c1 inst).getD JSValue.undef), c1)
  | none =>
      if value = JSValue.undef then
        let c1 := mapErase cache inst
        (.ok ((mapLookup c1 inst).getD JSValue.undef), c1)
      else
        (.error (JSError.typeError
          "Default memoized setter only accepts undefined"), cache)

/-- C10: when no user-defined setter exists, the generated default setter
accepts only `undefined`: that write deletes the instance's cached getter
entry (no entry remains for the instance, and the call returns undefined);
every other value makes it throw a TypeError and leaves the cache exactly
as it was. -/
theorem default_setter_only_undefined (inst : Nat) (value : JSValue)
    (cache : InstanceCache) :
    (value = JSValue.undef →
      memoizedSetter none inst value cache
        = (.ok JSValue.undef, mapErase cache inst) ∧
      mapLookup (memoizedSetter none inst value cache).2 inst = none) ∧
    (value ≠ JSValue.undef →
      memoizedSetter none inst value cache
        = (.error (JSError.typeError
            "Default memoized setter only accepts undefined"), cache)) := by
  constructor
  · intro h
    subst h
    constructor
    · show (Except.ok ((mapLookup (mapErase cache inst) inst).getD
          JSValue.undef), mapErase cache inst)
        = (.ok JSValue.undef, mapErase cache inst)
      rw [mapErase_lookup_self]
      rfl
    · show mapLookup (mapErase cache inst) inst = none
      exact mapErase_lookup_self cache inst
  · intro h
    unfold memoizedSetter
    rw [if_neg h]

/-- Witness for default_setter_only_undefined: writing the number 1 through
the default setter throws a TypeError and leaves the cache unchanged. -/
theorem default_setter_only_undefined_witness :
    memoizedSetter none 0 (JSValue.num 1) [(0, JSValue.num 9)]
      = (.error (JSError.typeError
          "Default memoized setter only accepts undefined"),
        [(0, JSValue.num 9)]) :=
  (default_setter_only_undefined 0 (JSValue.num 1) [(0, JSValue.num 9)]).2
    (by decide)
